import Mathlib

/-!
Shallow embedding of the search and cart/checkout core of the
`textual-invmgr` repository (`src/db/crud.py`), together with theorems
settling the specification claims about it.

The SQLite tables are modelled as lists of rows inside a `DB` record;
each `crud.py` function becomes a Lean function on `DB`.  SQL
`SELECT ... ORDER BY pid` becomes `sortByPid (filter ...)`,
`DELETE`/`INSERT` become list filtering and appending, and the
`LIKE '%t%'` patterns (whose argument never contains SQL wildcard
characters in the modelled calls) become literal substring containment
on ASCII-lowercased text.  Python `raise` is modelled with `Except`:
the exception in `update_cart_qty` fires before any database statement
runs, so the error carries no state change.
-/

namespace InvMgr

/-! ### Generic list helpers -/

/-- Does `needle` occur at the head of `hay`? (character lists) -/
def leadsWith : List Char → List Char → Bool
  | [], _ => true
  | _ :: _, [] => false
  | a :: as, b :: bs => a == b && leadsWith as bs

/-- Does `needle` occur contiguously anywhere inside `hay`? -/
def hasSub (needle : List Char) : List Char → Bool
  | [] => needle.isEmpty
  | b :: bs => leadsWith needle (b :: bs) || hasSub needle bs

/-- ASCII lowercase of a string (model of both Python `.lower()` and SQL
`LOWER`), computed on the character list. -/
def lowerStr (s : String) : String := String.mk (s.data.map Char.toLower)

/-- Model of Python `.strip()`: drop whitespace from both ends. -/
def trimStr (s : String) : String :=
  String.mk (((s.data.dropWhile Char.isWhitespace).reverse.dropWhile Char.isWhitespace).reverse)

/-- Model of `LOWER(field) LIKE ?` with parameter `%t%` where `t` is an
already-lowercased term: substring containment in the lowercased field. -/
def likeContains (t : String) (field : String) : Bool :=
  hasSub t.data (lowerStr field).data

/-- Character-level grouping underlying `wordsOf`: cut the list at every
whitespace character. -/
def wordGroups (l : List Char) : List (List Char) :=
  l.foldr
    (fun ch acc =>
      if ch.isWhitespace then [] :: acc
      else
        match acc with
        | [] => [[ch]]
        | w :: ws => (ch :: w) :: ws)
    []

/-- Model of Python `phrase.split()` filtered to non-empty words
(`[w for w in phrase.split() if w]`): maximal whitespace-free runs. -/
def wordsOf (phrase : String) : List String :=
  ((wordGroups phrase.data).filter (fun w => !w.isEmpty)).map String.mk

/-- Model of Python `str.isdigit` on the ASCII strings in play. -/
def isDigits (s : String) : Bool :=
  !s.isEmpty && s.data.all Char.isDigit

/-- Model of Python `int(...)` on an all-digit string. -/
def natOfDigits (s : String) : Nat :=
  s.data.foldl (fun a ch => a * 10 + (ch.toNat - 48)) 0

/-- First-occurrence de-duplication of a string list relative to an
already-seen set, mirroring the `seen_words` pattern in the source. -/
def dedupAux (seen : List String) : List String → List String
  | [] => []
  | w :: rest => if w ∈ seen then dedupAux seen rest else w :: dedupAux (w :: seen) rest

/-- Distinct elements of a string list in first-occurrence order. -/
def dedupStr (l : List String) : List String := dedupAux [] l

/-- First-occurrence de-duplication of an integer list (used to model the
grouping key order of SQL `GROUP BY pid` over a row list). -/
def dedupIntAux (seen : List Int) : List Int → List Int
  | [] => []
  | x :: rest => if x ∈ seen then dedupIntAux seen rest else x :: dedupIntAux (x :: seen) rest

def dedupInt (l : List Int) : List Int := dedupIntAux [] l

/-- `[start, start+1, ..., start+n-1]` over the integers (order numbers of lines). -/
def intRange (start : Int) : Nat → List Int
  | 0 => []
  | n + 1 => start :: intRange (start + 1) n

/-! ### Data model (rows of the SQLite tables used by the core) -/

/-- A row of the `products` table. -/
structure ProductR where
  pid : Int
  name : String
  category : String
  price : ℚ
  stock_count : Int
  descr : String
deriving Repr, DecidableEq

/-- A row of the `cart` table. -/
structure CartRow where
  cid : Int
  sessionNo : Int
  pid : Int
  qty : Int
deriving Repr, DecidableEq

/-- A row of the `orders` table (`odate` kept as an opaque integer timestamp). -/
structure OrderR where
  ono : Int
  cid : Int
  sessionNo : Int
  odate : Int
  shipping_address : String
deriving Repr, DecidableEq

/-- A row of the `orderlines` table. -/
structure OrderLineR where
  ono : Int
  lineNo : Int
  pid : Int
  qty : Int
  uprice : ℚ
deriving Repr, DecidableEq

/-- A row of the `search` audit table. -/
structure SearchRec where
  cid : Int
  sessionNo : Int
  ts : Int
  query : String
deriving Repr, DecidableEq

/-- An aggregated cart item as returned by `list_cart`. -/
structure CartItem where
  cid : Int
  sessionNo : Int
  pid : Int
  qty : Int
deriving Repr, DecidableEq

/-- The database state visible to the core. -/
structure DB where
  products : List ProductR
  cart : List CartRow
  orders : List OrderR
  orderlines : List OrderLineR
  searchLog : List SearchRec
deriving Repr, DecidableEq

/-- `SELECT ... FROM products WHERE pid = ?` (first matching row). -/
def findProd (pid : Int) (db : DB) : Option ProductR :=
  db.products.find? (fun r => r.pid == pid)

/-- `stock = int(row[0]) if row else 0` — the stock the cart code uses,
with a missing product treated as stock 0. -/
def stockOfD (pid : Int) (db : DB) : Int :=
  match findProd pid db with
  | some pr => pr.stock_count
  | none => 0

/-- Insert a product into a pid-ascending list, keeping earlier rows first on ties. -/
def insSorted (p : ProductR) : List ProductR → List ProductR
  | [] => [p]
  | q :: qs => if p.pid ≤ q.pid then p :: q :: qs else q :: insSorted p qs

/-- Model of SQL `ORDER BY pid` over a row list. -/
def sortByPid (l : List ProductR) : List ProductR := l.foldr insSorted []

/-- Rows of the cart that belong to the pair `(cid, pid)`. -/
def keyRows (c p : Int) (rows : List CartRow) : List CartRow :=
  rows.filter (fun r => r.cid == c && r.pid == p)

/-- `DELETE FROM cart WHERE cid=? AND pid=?`. -/
def delKey (c p : Int) (rows : List CartRow) : List CartRow :=
  rows.filter (fun r => !(r.cid == c && r.pid == p))

/-- `SELECT COALESCE(SUM(qty), 0) FROM cart WHERE cid=? AND pid=?`. -/
def cartTotal (c p : Int) (db : DB) : Int :=
  ((keyRows c p db.cart).map (fun r => r.qty)).sum

/-! ### Cart operations (`crud.py`) -/

/-- `add_to_cart(cid, sessionNo, pid, qty)`: no-op when the product is
missing/out of stock or `qty <= 0`; otherwise consolidates all rows of the
pair into one row with total capped at stock. -/
def addToCart (c s p q : Int) (db : DB) : DB :=
  let stock := stockOfD p db
  if stock ≤ 0 ∨ q ≤ 0 then db
  else
    let newTotal := min (cartTotal c p db + q) stock
    { db with cart := delKey c p db.cart ++ [⟨c, s, p, newTotal⟩] }

/-- `update_cart_qty(cid, sessionNo, pid, qty)`: raises on negative `qty`
(modelled as `Except.error`, before any database write), deletes the pair
at `qty = 0`, otherwise caps at stock and replaces with a single row. -/
def updateCartQty (c s p q : Int) (db : DB) : Except String DB :=
  if q < 0 then .error "Quantity cannot be negative."
  else if q = 0 then .ok { db with cart := delKey c p db.cart }
  else
    let stock := stockOfD p db
    let q2 := min q stock
    .ok { db with cart := delKey c p db.cart ++ [⟨c, s, p, q2⟩] }

/-- `remove_from_cart(cid, sessionNo, pid)`. -/
def removeFromCart (c _s p : Int) (db : DB) : DB :=
  { db with cart := delKey c p db.cart }

/-- `clear_cart(cid, sessionNo)`. -/
def clearCart (c _s : Int) (db : DB) : DB :=
  { db with cart := db.cart.filter (fun r => !(r.cid == c)) }

/-- `set_cart_qty_if_in_stock(cid, sessionNo, pid, qty)`: returns `false`
without mutation when `qty < 0` or `qty > stock`; otherwise consolidates to
a single row with quantity exactly `qty` and returns `true`. -/
def setCartQtyIfInStock (c s p q : Int) (db : DB) : Bool × DB :=
  if q < 0 then (false, db)
  else
    let stock := stockOfD p db
    if q > stock then (false, db)
    else (true, { db with cart := delKey c p db.cart ++ [⟨c, s, p, q⟩] })

/-- `SELECT cid, pid, SUM(qty) FROM cart WHERE cid = ? GROUP BY cid, pid`:
one aggregated item per product, in first-occurrence order of the pid. -/
def listCart (c s : Int) (db : DB) : List CartItem :=
  let rows := db.cart.filter (fun r => r.cid == c)
  (dedupInt (rows.map (fun r => r.pid))).map
    (fun p => ⟨c, s, p, ((rows.filter (fun r => r.pid == p)).map (fun r => r.qty)).sum⟩)

/-! ### Checkout (`crud.py` `checkout`) -/

/-- `SELECT pid, SUM(qty) FROM cart WHERE cid=? GROUP BY pid` over the
customer's rows: grouped `(pid, total_qty)` pairs in the grouped read's
iteration order. -/
def groupCart (rows : List CartRow) : List (Int × Int) :=
  (dedupInt (rows.map (fun r => r.pid))).map
    (fun p => (p, ((rows.filter (fun r => r.pid == p)).map (fun r => r.qty)).sum))

/-- `UPDATE products SET stock_count = stock_count - ? WHERE pid = ?`. -/
def decStock (p u : Int) (prods : List ProductR) : List ProductR :=
  prods.map (fun r => if r.pid == p then { r with stock_count := r.stock_count - u } else r)

/-- The line-processing loop of `checkout`: for each grouped cart pair,
look up the product (skipping missing ones), commit `min(qty, stock)`
when positive under the next sequential line number, and decrement stock. -/
def checkoutLines (ono : Int) (lineNo : Int) (prods : List ProductR) :
    List (Int × Int) → List OrderLineR × List ProductR
  | [] => ([], prods)
  | (p, q) :: rest =>
    match prods.find? (fun r => r.pid == p) with
    | none => checkoutLines ono lineNo prods rest
    | some pr =>
      let useQty := min q pr.stock_count
      if useQty ≤ 0 then checkoutLines ono lineNo prods rest
      else
        let res := checkoutLines ono (lineNo + 1) (decStock p useQty prods) rest
        (⟨ono, lineNo, p, useQty, pr.price⟩ :: res.1, res.2)

/-- `checkout(cid, sessionNo, shipping_address, odate)`.  The randomly
generated collision-checked order number is passed in as `ono` (the
theorems assume it is fresh, which is what the generation loop ensures). -/
def checkout (c s : Int) (addr : String) (odate : Int) (ono : Int) (db : DB) : Int × DB :=
  let rows := groupCart (db.cart.filter (fun r => r.cid == c))
  let res := checkoutLines ono 1 db.products rows
  (ono,
    { db with
      orders := db.orders ++ [⟨ono, c, s, odate, addr⟩]
      orderlines := db.orderlines ++ res.1
      products := res.2
      cart := db.cart.filter (fun r => !(r.cid == c)) })

/-! ### Search (`crud.py` `mixed_product_search_sales` and `search_products`) -/

/-- `LOWER(name) LIKE ? OR LOWER(descr) LIKE ?` with parameter `%t%`. -/
def matchesLike (t : String) (r : ProductR) : Bool :=
  likeContains t r.name || likeContains t r.descr

/-- The `results`/`seen` accumulator of the `add_rows` closure in
`mixed_product_search_sales`. -/
structure AccR where
  results : List ProductR
  seen : List Int
deriving Repr, DecidableEq

/-- One step of `add_rows`: skip a row whose pid was already seen,
otherwise record the pid and append the row. -/
def addRow (a : AccR) (row : ProductR) : AccR :=
  if row.pid ∈ a.seen then a else ⟨a.results ++ [row], row.pid :: a.seen⟩

/-- `add_rows(rows)`: fold `addRow` over a result set. -/
def addRows (a : AccR) (rows : List ProductR) : AccR :=
  rows.foldl addRow a

/-- One iteration of the per-word loop of the multi-word branch:
skip a word already in `seen_words`, otherwise run its keyword query
through `add_rows`. -/
def wordStep (db : DB) (acc : AccR × List String) (w : String) : AccR × List String :=
  if w ∈ acc.2 then acc
  else ((addRows acc.1 (sortByPid (db.products.filter (matchesLike w)))), w :: acc.2)

/-- `mixed_product_search_sales(query)` — the staff-side mixed search.
Returns the result list together with the (unchanged) database state, so
that its freedom from side effects is a statement rather than a typing
convention. -/
def mixedProductSearchSales (query : String) (db : DB) : List ProductR × DB :=
  let phrase := lowerStr (trimStr query)
  if phrase = "" then (sortByPid db.products, db)
  else if isDigits phrase then
    let pidVal : Int := Int.ofNat (natOfDigits phrase)
    let exact := sortByPid (db.products.filter (fun r => r.pid == pidVal))
    let acc1 := addRows ⟨[], []⟩ exact
    if exact.isEmpty then
      ((addRows acc1 (sortByPid (db.products.filter (matchesLike phrase)))).results, db)
    else (acc1.results, db)
  else
    let ws := wordsOf phrase
    if 1 < ws.length then
      let acc1 := addRows ⟨[], []⟩ (sortByPid (db.products.filter (matchesLike phrase)))
      ((ws.foldl (wordStep db) (acc1, [])).1.results, db)
    else (sortByPid (db.products.filter (matchesLike phrase)), db)

/-- The `terms` list built by `search_products`: empty query gives no
terms; a multi-word query gives the phrase followed by each token not yet
seen (the seen set starting as `{phrase}`); a single word gives itself. -/
def customerTerms (query : String) : List String :=
  let phrase := lowerStr (trimStr query)
  let ws := wordsOf phrase
  if phrase = "" then []
  else if 1 < ws.length then phrase :: dedupAux [phrase] ws
  else [phrase]

/-- The dynamic `WHERE` clause of `search_products`: OR over all terms of
`name`/`descr` substring match; no terms matches nothing (`1 = 0`). -/
def matchesAnyTerm (terms : List String) (r : ProductR) : Bool :=
  terms.any (fun t => matchesLike t r)

/-- `search_products(keyword, cid, sessionNo, when, page, page_size)` —
the recorded customer search.  Returns `((page_rows, total), db_after)`;
the audit insert into `search` runs on every call. -/
def searchProducts (keyword : String) (c sess ts : Int) (page : Int) (pageSize : Nat)
    (db : DB) : (List ProductR × Nat) × DB :=
  let terms := customerTerms keyword
  let hits := db.products.filter (matchesAnyTerm terms)
  let total := hits.length
  let offset := (max (page - 1) 0).toNat * pageSize
  let rows := ((sortByPid hits).drop offset).take pageSize
  ((rows, total), { db with searchLog := db.searchLog ++ [⟨c, sess, ts, keyword⟩] })

/-! ### Invariants, operation alphabets and specification-side definitions -/

/-- pids of a list of products. -/
def pidsOf (l : List ProductR) : List Int := l.map (fun r => r.pid)

/-- Every persisted cart row has a positive quantity (the CartLine data-model
invariant of the specification). -/
def PosCart (db : DB) : Prop := ∀ r ∈ db.cart, 0 < r.qty

instance (db : DB) : Decidable (PosCart db) :=
  inferInstanceAs (Decidable (∀ r ∈ db.cart, 0 < r.qty))

/-- At most one persisted cart row per `(customerId, productId)` pair:
no two rows of the cart share their key. -/
def Consolidated (db : DB) : Prop :=
  db.cart.Pairwise (fun r₁ r₂ => r₁.cid ≠ r₂.cid ∨ r₁.pid ≠ r₂.pid)

instance (db : DB) : Decidable (Consolidated db) := by
  unfold Consolidated
  infer_instance

/-- Every cart row's quantity is bounded by the stock of the catalog
product with its pid. -/
def StockBounded (db : DB) : Prop :=
  ∀ r ∈ db.cart, ∀ pr ∈ db.products, pr.pid = r.pid → r.qty ≤ pr.stock_count

instance (db : DB) : Decidable (StockBounded db) :=
  inferInstanceAs (Decidable (∀ r ∈ db.cart, ∀ pr ∈ db.products, pr.pid = r.pid → r.qty ≤ pr.stock_count))

/-- The two ledger-writing operations quantified over by the stock-ceiling
invariant claim: AddQuantity and SetQuantity. -/
inductive CartWriteOp where
  | addQ (c s p q : Int)
  | setQ (c s p q : Int)

/-- Run one write; a raised `ValueError` leaves the database unchanged. -/
def applyWrite (db : DB) : CartWriteOp → DB
  | .addQ c s p q => addToCart c s p q db
  | .setQ c s p q =>
    match updateCartQty c s p q db with
    | .ok db2 => db2
    | .error _ => db

/-- Run a finite sequence of cart writes. -/
def applyWrites (db : DB) (ops : List CartWriteOp) : DB := ops.foldl applyWrite db

/-- The whole public cart surface, for the row-positivity claim. -/
inductive CartSurfaceOp where
  | addQ (c s p q : Int)
  | setQ (c s p q : Int)
  | trySetQ (c s p q : Int)
  | removeOp (c s p : Int)
  | clearOp (c s : Int)
  | checkoutOp (c s : Int) (addr : String) (odate ono : Int)

/-- Run one public cart-surface operation (exceptions leave the state
unchanged, and the strict setter's Boolean is dropped). -/
def applySurface (db : DB) : CartSurfaceOp → DB
  | .addQ c s p q => addToCart c s p q db
  | .setQ c s p q =>
    match updateCartQty c s p q db with
    | .ok db2 => db2
    | .error _ => db
  | .trySetQ c s p q => (setCartQtyIfInStock c s p q db).2
  | .removeOp c s p => removeFromCart c s p db
  | .clearOp c s => clearCart c s db
  | .checkoutOp c s addr d ono => (checkout c s addr d ono db).2

/-- The cases in which an operation keeps cart rows positive — everything
except a strict set to quantity zero and a silently-capping set whose cap
is zero (out-of-catalog or zero-stock product). -/
def posSafe (db : DB) : CartSurfaceOp → Prop
  | .setQ _ _ p q => q ≤ 0 ∨ 0 < stockOfD p db
  | .trySetQ _ _ _ q => q ≠ 0
  | _ => True

instance (db : DB) (op : CartSurfaceOp) : Decidable (posSafe db op) := by
  cases op <;> simp only [posSafe] <;> infer_instance

/-- The grouped cart read that opens `checkout`. -/
def checkoutRows (c : Int) (db : DB) : List (Int × Int) :=
  groupCart (db.cart.filter (fun r => r.cid == c))

/-- Specification-side description of a staged multi-token AdminSearch
result (written from the claim, to be compared with the translated code):
start from the phrase matches in pid order and, for each distinct token,
append the pid-ordered token matches whose pid has not been emitted yet. -/
def stagedSpec (db : DB) (phrase : String) (tokens : List String) : List ProductR :=
  (dedupStr tokens).foldl
    (fun acc w =>
      acc ++ (sortByPid (db.products.filter (matchesLike w))).filter
        (fun r => !(pidsOf acc).contains r.pid))
    (sortByPid (db.products.filter (matchesLike phrase)))

/-! ### Sample data used by the concrete witnesses and counterexamples -/

def prW1 : ProductR := ⟨2001, "Wireless Mouse", "acc", 25, 10, "ergonomic mouse"⟩
def prW2 : ProductR := ⟨2002, "Mechanical Keyboard", "acc", 80, 5, "clicky keyboard"⟩
def prW3 : ProductR := ⟨2003, "USB-C Cable", "acc", 9, 2, "cable 2002 compatible"⟩

/-- A small catalog with an empty cart. -/
def dbW : DB := ⟨[prW1, prW2, prW3], [], [], [], []⟩

/-- The same catalog with unconsolidated cart rows for customer 1 and a
row for customer 2. -/
def dbW2 : DB :=
  ⟨[prW1, prW2, prW3],
   [⟨1, 1, 2003, 1⟩, ⟨1, 2, 2003, 1⟩, ⟨1, 1, 2001, 3⟩, ⟨1, 1, 8888, 2⟩, ⟨2, 1, 2002, 1⟩],
   [⟨777, 2, 1, 50, "old"⟩], [], []⟩

/-! ### Lemmas about the helpers -/

theorem wordGroups_all_nonws (l : List Char) (hl : l ≠ [])
    (h : ∀ ch ∈ l, ch.isWhitespace = false) : wordGroups l = [l] := by
  induction l with
  | nil => exact absurd rfl hl
  | cons c rest ih =>
    have hc : c.isWhitespace = false := h c (List.mem_cons_self c rest)
    by_cases hr : rest = []
    · subst hr
      simp [wordGroups, hc]
    · have := ih hr (fun ch hch => h ch (List.mem_cons_of_mem c hch))
      simp only [wordGroups] at this ⊢
      rw [List.foldr_cons, this, hc]
      simp

theorem digit_not_ws (c : Char) (h : c.isDigit = true) : c.isWhitespace = false := by
  have hd : '0' ≤ c ∧ c ≤ '9' := by
    simpa [Char.isDigit] using h
  by_contra hw
  have hw2 : ((c = ' ' ∨ c = '\t') ∨ c = '\x0d') ∨ c = '\n' := by
    have : c.isWhitespace = true := by simpa using hw
    simpa [Char.isWhitespace] using this
  rcases hw2 with ((rfl | rfl) | rfl) | rfl <;> exact absurd hd (by decide)

theorem wordsOf_empty : wordsOf "" = [] := rfl

theorem wordsOf_digits_len (s : String) (h : isDigits s = true) :
    (wordsOf s).length = 1 := by
  have hall : ∀ ch ∈ s.data, ch.isDigit = true := by
    have := h
    simp only [isDigits, Bool.and_eq_true, List.all_eq_true] at this
    exact fun ch hch => this.2 ch hch
  have hd : s.data ≠ [] := by
    intro hnil
    cases s with
    | mk data =>
      simp only at hnil
      subst hnil
      exact absurd h (by decide)
  have hws : ∀ ch ∈ s.data, ch.isWhitespace = false :=
    fun ch hch => digit_not_ws ch (hall ch hch)
  rw [wordsOf, wordGroups_all_nonws s.data hd hws]
  simp [hd]

theorem insSorted_perm (p : ProductR) (l : List ProductR) :
    List.Perm (insSorted p l) (p :: l) := by
  induction l with
  | nil => simp [insSorted]
  | cons q qs ih =>
    simp only [insSorted]
    split
    · exact List.Perm.refl _
    · calc
        List.Perm (q :: insSorted p qs) (q :: p :: qs) := List.Perm.cons q ih
        List.Perm _ (p :: q :: qs) := List.Perm.swap p q qs

theorem sortByPid_perm (l : List ProductR) : List.Perm (sortByPid l) l := by
  induction l with
  | nil => exact List.Perm.refl _
  | cons a l ih =>
    have h1 : List.Perm (insSorted a (sortByPid l)) (a :: sortByPid l) :=
      insSorted_perm a (sortByPid l)
    exact h1.trans (List.Perm.cons a ih)

theorem insSorted_sorted (p : ProductR) (l : List ProductR)
    (h : l.Pairwise (fun x y => x.pid ≤ y.pid)) :
    (insSorted p l).Pairwise (fun x y => x.pid ≤ y.pid) := by
  induction l with
  | nil => simp [insSorted]
  | cons q qs ih =>
    simp only [insSorted]
    rcases List.pairwise_cons.mp h with ⟨hq, hqs⟩
    split_ifs with hpq
    · refine List.pairwise_cons.mpr ⟨?_, h⟩
      intro x hx
      rcases List.mem_cons.mp hx with rfl | hx2
      · exact hpq
      · have := hq x hx2
        omega
    · refine List.pairwise_cons.mpr ⟨?_, ih hqs⟩
      intro x hx
      have hx2 := (insSorted_perm p qs).mem_iff.mp hx
      rcases List.mem_cons.mp hx2 with rfl | hx3
      · omega
      · exact hq x hx3

theorem sortByPid_sorted (l : List ProductR) :
    (sortByPid l).Pairwise (fun x y => x.pid ≤ y.pid) := by
  induction l with
  | nil => simp [sortByPid]
  | cons a l ih => exact insSorted_sorted a (sortByPid l) ih

theorem pidsOf_sortByPid_nodup (l : List ProductR) (h : (pidsOf l).Nodup) :
    (pidsOf (sortByPid l)).Nodup := by
  have hp := (sortByPid_perm l).map (fun r => r.pid)
  have := hp.nodup_iff.mpr (by simpa [pidsOf] using h)
  simpa [pidsOf] using this

theorem pidsOf_filter_nodup (l : List ProductR) (f : ProductR → Bool)
    (h : (pidsOf l).Nodup) : (pidsOf (l.filter f)).Nodup :=
  List.Nodup.sublist (List.Sublist.map _ (List.filter_sublist l)) h

theorem filter_pid_eq_single (l : List ProductR) (v : Int) (pr : ProductR)
    (hnodup : (pidsOf l).Nodup) (hmem : pr ∈ l) (hpid : pr.pid = v) :
    l.filter (fun r => r.pid == v) = [pr] := by
  induction l with
  | nil => cases hmem
  | cons a l ih =>
    have hnd : a.pid ∉ List.map (fun r => r.pid) l ∧
        (List.map (fun r => r.pid) l).Nodup := by
      simpa [pidsOf] using hnodup
    rcases List.mem_cons.mp hmem with rfl | hmem2
    · rw [List.filter_cons_of_pos (by simp [hpid])]
      have hnil : l.filter (fun r => r.pid == v) = [] := by
        apply List.filter_eq_nil_iff.mpr
        intro r hr
        simp only [beq_iff_eq]
        intro hrv
        apply hnd.1
        have hpr : pr.pid = r.pid := by rw [hpid, hrv]
        rw [hpr]
        exact List.mem_map_of_mem (fun r => r.pid) hr
      rw [hnil]
    · have hane : a.pid ≠ v := by
        intro hav
        apply hnd.1
        rw [hav, ← hpid]
        exact List.mem_map_of_mem (fun r => r.pid) hmem2
      rw [List.filter_cons_of_neg (by simp [hane])]
      exact ih (by simpa [pidsOf] using hnd.2) hmem2

theorem filter_pid_eq_nil (l : List ProductR) (v : Int)
    (h : ∀ pr ∈ l, pr.pid ≠ v) : l.filter (fun r => r.pid == v) = [] := by
  apply List.filter_eq_nil_iff.mpr
  intro r hr
  simpa using h r hr

theorem dedupIntAux_nodup (l : List Int) (seen : List Int) :
    (dedupIntAux seen l).Nodup ∧ ∀ x ∈ dedupIntAux seen l, x ∉ seen := by
  induction l generalizing seen with
  | nil => simp [dedupIntAux]
  | cons a l ih =>
    simp only [dedupIntAux]
    split
    · exact ih seen
    · rename_i ha
      obtain ⟨ihn, ihs⟩ := ih (a :: seen)
      refine ⟨List.nodup_cons.mpr ⟨?_, ihn⟩, ?_⟩
      · intro hmem
        exact (ihs a hmem) (List.mem_cons_self a seen)
      · intro x hx
        rcases List.mem_cons.mp hx with rfl | hx2
        · exact ha
        · intro hxs
          exact (ihs x hx2) (List.mem_cons_of_mem a hxs)

theorem dedupInt_nodup (l : List Int) : (dedupInt l).Nodup :=
  (dedupIntAux_nodup l []).1

/-! ### Lemmas about cart primitives -/

theorem keyRows_delKey (c p : Int) (rows : List CartRow) :
    keyRows c p (delKey c p rows) = [] := by
  unfold keyRows delKey
  apply List.filter_eq_nil_iff.mpr
  intro r hr
  have h2 := (List.mem_filter.mp hr).2
  simp only [Bool.not_eq_eq_eq_not, Bool.not_true, Bool.and_eq_false_imp] at h2 ⊢
  intro hc
  simp only [Bool.and_eq_true, beq_iff_eq] at hc
  simp [hc.1, hc.2] at h2

theorem cartTotal_replaced (c s p q : Int) (db : DB) :
    cartTotal c p { db with cart := delKey c p db.cart ++ [⟨c, s, p, q⟩] } = q := by
  show ((keyRows c p (delKey c p db.cart ++ [⟨c, s, p, q⟩])).map (fun r => r.qty)).sum = q
  unfold keyRows
  rw [List.filter_append]
  have h1 := keyRows_delKey c p db.cart
  unfold keyRows at h1
  rw [h1]
  simp

theorem cartTotal_nonneg (c p : Int) (db : DB) (hpos : PosCart db) :
    0 ≤ cartTotal c p db := by
  apply List.sum_nonneg
  intro x hx
  rcases List.mem_map.mp hx with ⟨r, hr, rfl⟩
  exact le_of_lt (hpos r (List.mem_filter.mp hr).1)

theorem mem_delKey (c p : Int) (rows : List CartRow) (r : CartRow)
    (h : r ∈ delKey c p rows) : r ∈ rows :=
  (List.mem_filter.mp h).1

/-! ### Claim theorems: cart error handling and frame effects -/

/-- C10: `AddQuantity` on a product id that is not in the catalog treats
the product as having stock 0, takes the documented no-op branch, raises
nothing, and leaves the whole database state unchanged. -/
theorem addToCart_missing_noop (c s p q : Int) (db : DB)
    (h : findProd p db = none) : addToCart c s p q db = db := by
  have hs : stockOfD p db = 0 := by simp [stockOfD, h]
  simp [addToCart, hs]

/-- C10 witness: adding a nonexistent product 7777 to the sample database
changes nothing. -/
theorem addToCart_missing_noop_witness :
    findProd 7777 dbW = none ∧ addToCart 1 1 7777 5 dbW = dbW :=
  ⟨by decide, addToCart_missing_noop 1 1 7777 5 dbW (by decide)⟩

/-- C4: `SetQuantity` fails (raises) exactly when `qty < 0`, with no state
change; `qty = 0` deletes the pair's rows (idempotently, an absent row is
not an error — the result is `ok` for every state); `qty > 0` silently
caps at the product's current stock and replaces all rows of the pair
with one row carrying the capped quantity and the given session. -/
theorem updateCartQty_spec (c s p q : Int) (db : DB) :
    ((updateCartQty c s p q db).isOk = true ↔ 0 ≤ q) ∧
    (q < 0 → updateCartQty c s p q db = .error "Quantity cannot be negative.") ∧
    (q = 0 → updateCartQty c s p q db = .ok { db with cart := delKey c p db.cart }) ∧
    (0 < q → updateCartQty c s p q db =
      .ok { db with cart := delKey c p db.cart ++ [⟨c, s, p, min q (stockOfD p db)⟩] }) := by
  have herr : q < 0 → updateCartQty c s p q db = .error "Quantity cannot be negative." := by
    intro h
    simp [updateCartQty, h]
  have hzero : q = 0 → updateCartQty c s p q db = .ok { db with cart := delKey c p db.cart } := by
    intro h
    subst h
    simp [updateCartQty]
  have hpos : 0 < q → updateCartQty c s p q db =
      .ok { db with cart := delKey c p db.cart ++ [⟨c, s, p, min q (stockOfD p db)⟩] } := by
    intro h
    have h1 : ¬ q < 0 := by omega
    have h2 : ¬ q = 0 := by omega
    simp [updateCartQty, h1, h2]
  refine ⟨⟨?_, ?_⟩, herr, hzero, hpos⟩
  · intro hok
    by_contra hq
    rw [herr (by omega)] at hok
    simp [Except.isOk, Except.toBool] at hok
  · intro hq
    rcases lt_or_eq_of_le hq with h | h
    · rw [hpos h]
      rfl
    · rw [hzero h.symm]
      rfl

/-- C4 witness: a negative set on the sample database raises, a zero set
deletes, a positive set stores the capped quantity. -/
theorem updateCartQty_spec_witness :
    updateCartQty 1 1 2003 (-1) dbW2 = .error "Quantity cannot be negative." ∧
    updateCartQty 1 1 2003 0 dbW2 = .ok { dbW2 with cart := delKey 1 2003 dbW2.cart } ∧
    updateCartQty 1 1 2003 7 dbW2 =
      .ok { dbW2 with cart := delKey 1 2003 dbW2.cart ++ [⟨1, 1, 2003, min 7 (stockOfD 2003 dbW2)⟩] } :=
  ⟨(updateCartQty_spec 1 1 2003 (-1) dbW2).2.1 (by decide),
   (updateCartQty_spec 1 1 2003 0 dbW2).2.2.1 (by decide),
   (updateCartQty_spec 1 1 2003 7 dbW2).2.2.2 (by decide)⟩

/-- C9: every call of the recorded customer search appends exactly the
audit record `(cid, sessionNo, ts, raw query)` to the search log — also
for an empty query — while the staff mixed search returns its result with
the database state unchanged on every query. -/
theorem search_audit_effects (q keyword : String) (c sess ts page : Int) (pageSize : Nat)
    (db : DB) :
    (searchProducts keyword c sess ts page pageSize db).2 =
      { db with searchLog := db.searchLog ++ [⟨c, sess, ts, keyword⟩] } ∧
    (searchProducts keyword c sess ts page pageSize db).2.searchLog.length =
      db.searchLog.length + 1 ∧
    (mixedProductSearchSales q db).2 = db := by
  refine ⟨rfl, by simp [searchProducts], ?_⟩
  simp only [mixedProductSearchSales]
  split_ifs <;> rfl

/-! ### C3: the strict setter versus SetQuantity -/

/-- C3 counterexample: with product 2003 in stock (stock 2 ≥ 0) and the
quantity 0 in the accepted range, `TrySetQuantityIfInStock` returns true
but does NOT perform the same consolidating replace as `SetQuantity`:
`SetQuantity` deletes the pair's rows, while the strict setter leaves a
single zero-quantity row, so the resulting states differ. -/
theorem setCartQtyIfInStock_counterexample :
    (0 : Int) ≤ stockOfD 2003 dbW2 ∧
    (setCartQtyIfInStock 1 1 2003 0 dbW2).1 = true ∧
    updateCartQty 1 1 2003 0 dbW2 = .ok { dbW2 with cart := delKey 1 2003 dbW2.cart } ∧
    (setCartQtyIfInStock 1 1 2003 0 dbW2).2 ≠ { dbW2 with cart := delKey 1 2003 dbW2.cart } := by
  refine ⟨by decide, by decide, rfl, by decide⟩

/-- C3 (amended): the strict setter returns false without mutation when
`qty < 0` or `qty` exceeds current stock; otherwise it returns true and
consolidates the pair to a single row holding exactly `qty` (so the
ledger total for the pair equals `qty`), which for `qty > 0` coincides
with `SetQuantity`'s replace — but for `qty = 0` it stores a zero-quantity
row where `SetQuantity` would delete the row. -/
theorem setCartQtyIfInStock_spec (c s p q : Int) (db : DB) :
    (q < 0 ∨ stockOfD p db < q → setCartQtyIfInStock c s p q db = (false, db)) ∧
    (0 ≤ q → q ≤ stockOfD p db →
      (setCartQtyIfInStock c s p q db).1 = true ∧
      (setCartQtyIfInStock c s p q db).2 =
        { db with cart := delKey c p db.cart ++ [⟨c, s, p, q⟩] } ∧
      cartTotal c p (setCartQtyIfInStock c s p q db).2 = q ∧
      (0 < q → updateCartQty c s p q db = .ok (setCartQtyIfInStock c s p q db).2)) := by
  constructor
  · intro h
    by_cases hq : q < 0
    · simp [setCartQtyIfInStock, hq]
    · rcases h with h | h
      · exact absurd h hq
      · simp [setCartQtyIfInStock, hq, h]
  · intro h0 hstock
    have h1 : ¬ q < 0 := by omega
    have h2 : ¬ q > stockOfD p db := by omega
    have heq : setCartQtyIfInStock c s p q db =
        (true, { db with cart := delKey c p db.cart ++ [⟨c, s, p, q⟩] }) := by
      simp [setCartQtyIfInStock, h1, h2]
    refine ⟨by rw [heq], by rw [heq], ?_, ?_⟩
    · rw [heq]
      exact cartTotal_replaced c s p q db
    · intro hq
      rw [heq]
      have h3 : ¬ q = 0 := by omega
      have : min q (stockOfD p db) = q := by omega
      simp [updateCartQty, h1, h3, this]

/-- C3 witness: a too-large set is refused without mutation, and an
in-stock set of 2 succeeds and equals the SetQuantity replace. -/
theorem setCartQtyIfInStock_spec_witness :
    setCartQtyIfInStock 1 1 2003 99 dbW2 = (false, dbW2) ∧
    (setCartQtyIfInStock 1 1 2003 2 dbW2).1 = true ∧
    cartTotal 1 2003 (setCartQtyIfInStock 1 1 2003 2 dbW2).2 = 2 :=
  ⟨(setCartQtyIfInStock_spec 1 1 2003 99 dbW2).1 (Or.inr (by decide)),
   ((setCartQtyIfInStock_spec 1 1 2003 2 dbW2).2 (by decide) (by decide)).1,
   ((setCartQtyIfInStock_spec 1 1 2003 2 dbW2).2 (by decide) (by decide)).2.2.1⟩

/-! ### C5: positivity of persisted cart rows -/

/-- C5 counterexample: from a state whose cart rows are all positive, the
public operation `TrySetQuantityIfInStock` with requested quantity 0
returns true and leaves a persisted row with quantity 0 — so the claim
that every public cart operation leaves only positive rows is false. -/
theorem cart_rows_positive_counterexample :
    PosCart dbW ∧
    (setCartQtyIfInStock 1 1 2003 0 dbW).1 = true ∧
    ¬ PosCart (setCartQtyIfInStock 1 1 2003 0 dbW).2 := by
  decide

/-- C5 (amended): after any public cart-surface operation other than the
two zero-capping branches — `TrySetQuantityIfInStock` with requested
quantity 0 (which stores a zero row) and `SetQuantity` with `qty > 0` on a
product of stock ≤ 0 or missing from the catalog (whose cap is 0) — every
persisted cart row still has a positive quantity. -/
theorem cart_rows_positive (db : DB) (op : CartSurfaceOp)
    (hpos : PosCart db) (hsafe : posSafe db op) : PosCart (applySurface db op) := by
  cases op with
  | addQ c s p q =>
    show PosCart (addToCart c s p q db)
    simp only [addToCart]
    split_ifs with hcond
    · exact hpos
    · intro r hr
      rcases List.mem_append.mp hr with hr2 | hr2
      · exact hpos r (mem_delKey c p db.cart r hr2)
      · have : r = ⟨c, s, p, min (cartTotal c p db + q) (stockOfD p db)⟩ := by
          simpa using hr2
        subst this
        have htot := cartTotal_nonneg c p db hpos
        push_neg at hcond
        simp only
        omega
  | setQ c s p q =>
    simp only [applySurface]
    rcases lt_trichotomy q 0 with hq | hq | hq
    · rw [(updateCartQty_spec c s p q db).2.1 hq]
      exact hpos
    · rw [(updateCartQty_spec c s p q db).2.2.1 hq]
      intro r hr
      exact hpos r (mem_delKey c p db.cart r hr)
    · rw [(updateCartQty_spec c s p q db).2.2.2 hq]
      intro r hr
      rcases List.mem_append.mp hr with hr2 | hr2
      · exact hpos r (mem_delKey c p db.cart r hr2)
      · have : r = ⟨c, s, p, min q (stockOfD p db)⟩ := by simpa using hr2
        subst this
        have hstock : 0 < stockOfD p db := by
          rcases hsafe with h | h
          · omega
          · exact h
        simp only
        omega
  | trySetQ c s p q =>
    show PosCart (setCartQtyIfInStock c s p q db).2
    simp only [setCartQtyIfInStock]
    split_ifs with h1 h2
    · exact hpos
    · exact hpos
    · intro r hr
      simp only at hr
      rcases List.mem_append.mp hr with hr2 | hr2
      · exact hpos r (mem_delKey c p db.cart r hr2)
      · have : r = ⟨c, s, p, q⟩ := by simpa using hr2
        subst this
        have hq : q ≠ 0 := hsafe
        simp only
        omega
  | removeOp c s p =>
    simp only [applySurface, removeFromCart]
    intro r hr
    exact hpos r (mem_delKey c p db.cart r hr)
  | clearOp c s =>
    simp only [applySurface, clearCart]
    intro r hr
    exact hpos r (List.mem_filter.mp hr).1
  | checkoutOp c s addr d ono =>
    simp only [applySurface, checkout]
    intro r hr
    exact hpos r (List.mem_filter.mp hr).1

/-- C5 witness: positivity is preserved by a strict set of quantity 2. -/
theorem cart_rows_positive_witness :
    PosCart (applySurface dbW2 (.trySetQ 1 1 2003 2)) :=
  cart_rows_positive dbW2 (.trySetQ 1 1 2003 2) (by decide) (by decide)

/-! ### C2: the stock-ceiling and consolidation invariant -/

theorem find_pid_eq_of_mem (l : List ProductR) (v : Int) (pr : ProductR)
    (hnodup : (pidsOf l).Nodup) (hmem : pr ∈ l) (hpid : pr.pid = v) :
    l.find? (fun r => r.pid == v) = some pr := by
  induction l with
  | nil => cases hmem
  | cons a l ih =>
    have hnd : a.pid ∉ List.map (fun r => r.pid) l ∧
        (List.map (fun r => r.pid) l).Nodup := by
      simpa [pidsOf] using hnodup
    rcases List.mem_cons.mp hmem with rfl | hmem2
    · rw [List.find?_cons_of_pos _ (by simp [hpid])]
    · have hane : a.pid ≠ v := by
        intro hav
        apply hnd.1
        rw [hav, ← hpid]
        exact List.mem_map_of_mem (fun r => r.pid) hmem2
      rw [List.find?_cons_of_neg _ (by simp [hane])]
      exact ih (by simpa [pidsOf] using hnd.2) hmem2

theorem consolidated_replace (c s p q : Int) (db : DB) (hc : Consolidated db) :
    Consolidated { db with cart := delKey c p db.cart ++ [⟨c, s, p, q⟩] } := by
  show List.Pairwise _ (delKey c p db.cart ++ [⟨c, s, p, q⟩])
  refine List.pairwise_append.mpr ⟨List.Pairwise.sublist (List.filter_sublist _) hc, ?_, ?_⟩
  · simp
  · intro a ha b hb
    rcases List.mem_singleton.mp hb with rfl
    have hpred := List.of_mem_filter ha
    simp only [Bool.not_eq_eq_eq_not, Bool.not_true, Bool.and_eq_false_iff, beq_eq_false_iff_ne,
      ne_eq] at hpred
    tauto

theorem stockBounded_replace (c s p q : Int) (db : DB)
    (hb : StockBounded db) (hnodup : (pidsOf db.products).Nodup)
    (hq : q ≤ stockOfD p db) :
    StockBounded { db with cart := delKey c p db.cart ++ [⟨c, s, p, q⟩] } := by
  intro r hr pr hpr hpid
  rcases List.mem_append.mp hr with h2 | h2
  · exact hb r (mem_delKey c p db.cart r h2) pr hpr hpid
  · have : r = ⟨c, s, p, q⟩ := by simpa using h2
    subst this
    have hf : findProd p db = some pr := find_pid_eq_of_mem db.products p pr hnodup hpr hpid
    have hs : stockOfD p db = pr.stock_count := by simp [stockOfD, hf]
    show q ≤ pr.stock_count
    rw [← hs]
    exact hq

theorem stockBounded_delete (c p : Int) (db : DB) (hb : StockBounded db) :
    StockBounded { db with cart := delKey c p db.cart } := by
  intro r hr pr hpr hpid
  exact hb r (mem_delKey c p db.cart r hr) pr hpr hpid

theorem applyWrite_products (db : DB) (op : CartWriteOp) :
    (applyWrite db op).products = db.products := by
  cases op with
  | addQ c s p q =>
    simp only [applyWrite, addToCart]
    split_ifs <;> rfl
  | setQ c s p q =>
    simp only [applyWrite]
    rcases lt_trichotomy q 0 with hq | hq | hq
    · rw [(updateCartQty_spec c s p q db).2.1 hq]
    · rw [(updateCartQty_spec c s p q db).2.2.1 hq]
    · rw [(updateCartQty_spec c s p q db).2.2.2 hq]

theorem applyWrite_inv (db : DB) (op : CartWriteOp)
    (hc : Consolidated db) (hb : StockBounded db)
    (hnodup : (pidsOf db.products).Nodup) :
    Consolidated (applyWrite db op) ∧ StockBounded (applyWrite db op) := by
  cases op with
  | addQ c s p q =>
    simp only [applyWrite, addToCart]
    split_ifs with h
    · exact ⟨hc, hb⟩
    · exact ⟨consolidated_replace c s p _ db hc,
        stockBounded_replace c s p _ db hb hnodup (min_le_right _ _)⟩
  | setQ c s p q =>
    simp only [applyWrite]
    rcases lt_trichotomy q 0 with hq | hq | hq
    · rw [(updateCartQty_spec c s p q db).2.1 hq]
      exact ⟨hc, hb⟩
    · rw [(updateCartQty_spec c s p q db).2.2.1 hq]
      exact ⟨List.Pairwise.sublist (List.filter_sublist _) hc, stockBounded_delete c p db hb⟩
    · rw [(updateCartQty_spec c s p q db).2.2.2 hq]
      exact ⟨consolidated_replace c s p _ db hc,
        stockBounded_replace c s p _ db hb hnodup (min_le_right _ _)⟩

theorem applyWrites_products (db : DB) (ops : List CartWriteOp) :
    (applyWrites db ops).products = db.products := by
  induction ops generalizing db with
  | nil => rfl
  | cons op ops ih =>
    show (applyWrites (applyWrite db op) ops).products = db.products
    rw [ih, applyWrite_products]

theorem applyWrites_inv (db : DB) (ops : List CartWriteOp)
    (hc : Consolidated db) (hb : StockBounded db)
    (hnodup : (pidsOf db.products).Nodup) :
    Consolidated (applyWrites db ops) ∧ StockBounded (applyWrites db ops) := by
  induction ops generalizing db with
  | nil => exact ⟨hc, hb⟩
  | cons op ops ih =>
    have hstep := applyWrite_inv db op hc hb hnodup
    have hnodup2 : (pidsOf (applyWrite db op).products).Nodup := by
      rw [applyWrite_products]
      exact hnodup
    exact ih (applyWrite db op) hstep.1 hstep.2 hnodup2

theorem keyRows_len_le_one (rows : List CartRow)
    (hc : rows.Pairwise (fun r₁ r₂ => r₁.cid ≠ r₂.cid ∨ r₁.pid ≠ r₂.pid)) (c p : Int) :
    (keyRows c p rows).length ≤ 1 := by
  have hsub : (keyRows c p rows).Pairwise (fun r₁ r₂ => r₁.cid ≠ r₂.cid ∨ r₁.pid ≠ r₂.pid) :=
    List.Pairwise.sublist (List.filter_sublist _) hc
  cases hk : keyRows c p rows with
  | nil => simp
  | cons r1 rest =>
    cases rest with
    | nil => simp
    | cons r2 t =>
      exfalso
      rw [hk] at hsub
      have h12 := (List.pairwise_cons.mp hsub).1 r2 (List.mem_cons_self _ _)
      have h1 : r1 ∈ keyRows c p rows := by
        rw [hk]
        exact List.mem_cons_self _ _
      have h2 : r2 ∈ keyRows c p rows := by
        rw [hk]
        exact List.mem_cons_of_mem _ (List.mem_cons_self _ _)
      have p1 := List.of_mem_filter h1
      have p2 := List.of_mem_filter h2
      simp only [Bool.and_eq_true, beq_iff_eq] at p1 p2
      rcases h12 with h12 | h12
      · exact h12 (p1.1.trans p2.1.symm)
      · exact h12 (p1.2.trans p2.2.symm)

theorem cartTotal_le_stock (db : DB) (hc : Consolidated db) (hb : StockBounded db)
    (pr : ProductR) (hpr : pr ∈ db.products) (hst : 0 ≤ pr.stock_count) (c : Int) :
    cartTotal c pr.pid db ≤ pr.stock_count := by
  unfold cartTotal
  cases hk : keyRows c pr.pid db.cart with
  | nil => simpa using hst
  | cons r rest =>
    cases rest with
    | nil =>
      have hrk : r ∈ keyRows c pr.pid db.cart := by
        rw [hk]
        exact List.mem_cons_self _ _
      have hmem := (List.mem_filter.mp hrk).1
      have hkey := List.of_mem_filter hrk
      simp only [Bool.and_eq_true, beq_iff_eq] at hkey
      have := hb r hmem pr hpr hkey.2.symm
      simpa using this
    | cons r2 t =>
      exfalso
      have := keyRows_len_le_one db.cart hc c pr.pid
      rw [hk] at this
      simp at this

/-- C2: from a consolidated, stock-bounded ledger over a duplicate-free
catalog of non-negative stocks, any finite sequence of AddQuantity and
SetQuantity calls keeps the ledger consolidated — at most one persisted
row per `(customer, product)` pair — and keeps every pair's total quantity
within the product's current `stock_count`. -/
theorem cart_ledger_invariant (db : DB) (ops : List CartWriteOp)
    (hcons : Consolidated db) (hbound : StockBounded db)
    (hnodup : (pidsOf db.products).Nodup)
    (hstock : ∀ pr ∈ db.products, 0 ≤ pr.stock_count) :
    Consolidated (applyWrites db ops) ∧
    StockBounded (applyWrites db ops) ∧
    (∀ c p : Int, (keyRows c p (applyWrites db ops).cart).length ≤ 1) ∧
    (∀ pr ∈ db.products, ∀ c : Int,
      cartTotal c pr.pid (applyWrites db ops) ≤ pr.stock_count) := by
  obtain ⟨hc2, hb2⟩ := applyWrites_inv db ops hcons hbound hnodup
  refine ⟨hc2, hb2, fun c p => keyRows_len_le_one _ hc2 c p, ?_⟩
  intro pr hpr c
  have hpr2 : pr ∈ (applyWrites db ops).products := by
    rw [applyWrites_products]
    exact hpr
  exact cartTotal_le_stock _ hc2 hb2 pr hpr2 (hstock pr hpr) c

/-- C2 witness: a concrete sequence of adds and sets on the sample
database preserves the ledger invariant. -/
theorem cart_ledger_invariant_witness :
    Consolidated (applyWrites dbW
      [.addQ 1 1 2003 10, .setQ 1 2 2001 4, .addQ 2 1 2002 7, .setQ 1 1 2003 0]) ∧
    (∀ c p : Int, (keyRows c p (applyWrites dbW
      [.addQ 1 1 2003 10, .setQ 1 2 2001 4, .addQ 2 1 2002 7, .setQ 1 1 2003 0]).cart).length ≤ 1) := by
  have h := cart_ledger_invariant dbW
      [.addQ 1 1 2003 10, .setQ 1 2 2001 4, .addQ 2 1 2002 7, .setQ 1 1 2003 0]
      (by decide) (by decide) (by decide) (by decide)
  exact ⟨h.1, h.2.2.1⟩

/-! ### The `add_rows` accumulator of the staff mixed search -/

theorem addRows_results (a : AccR) (l : List ProductR)
    (hinv : ∀ x, x ∈ a.seen ↔ x ∈ pidsOf a.results)
    (hl : (pidsOf l).Nodup) :
    (addRows a l).results =
      a.results ++ l.filter (fun r => !(pidsOf a.results).contains r.pid) ∧
    (∀ x, x ∈ (addRows a l).seen ↔ x ∈ pidsOf (addRows a l).results) ∧
    ((pidsOf a.results).Nodup → (pidsOf (addRows a l).results).Nodup) := by
  induction l generalizing a with
  | nil => simp [addRows, hinv]
  | cons r rest ih =>
    have hstep : addRows a (r :: rest) = addRows (addRow a r) rest := rfl
    have hlrest : (pidsOf rest).Nodup := by
      simp only [pidsOf, List.map_cons, List.nodup_cons] at hl
      exact hl.2
    have hrnotin : r.pid ∉ pidsOf rest := by
      simp only [pidsOf, List.map_cons, List.nodup_cons] at hl
      exact hl.1
    by_cases hr : r.pid ∈ a.seen
    · have hskip : addRow a r = a := by simp [addRow, hr]
      have hcont : r.pid ∈ pidsOf a.results := (hinv r.pid).mp hr
      rw [hstep, hskip]
      obtain ⟨ih1, ih2, ih3⟩ := ih a hinv hlrest
      refine ⟨?_, ih2, ih3⟩
      rw [ih1, List.filter_cons_of_neg (by simp [hcont])]
    · have hnew : addRow a r = ⟨a.results ++ [r], r.pid :: a.seen⟩ := by simp [addRow, hr]
      have hinv2 : ∀ x, x ∈ (AccR.mk (a.results ++ [r]) (r.pid :: a.seen)).seen ↔
          x ∈ pidsOf (AccR.mk (a.results ++ [r]) (r.pid :: a.seen)).results := by
        intro x
        simp [pidsOf, hinv x, or_comm]
      obtain ⟨ih1, ih2, ih3⟩ := ih ⟨a.results ++ [r], r.pid :: a.seen⟩ hinv2 hlrest
      rw [hstep, hnew]
      have hfe : rest.filter
            (fun x => !(pidsOf (a.results ++ [r])).contains x.pid) =
          rest.filter (fun x => !(pidsOf a.results).contains x.pid) := by
        apply List.filter_congr
        intro x hx
        have hxr : x.pid ≠ r.pid := by
          intro hxe
          apply hrnotin
          rw [← hxe]
          exact List.mem_map_of_mem (fun r => r.pid) hx
        simp [pidsOf, hxr]
      have hnotc : r.pid ∉ pidsOf a.results := fun hmem => hr ((hinv r.pid).mpr hmem)
      refine ⟨?_, ih2, ?_⟩
      · rw [ih1]
        simp only at hfe ⊢
        rw [hfe, List.filter_cons_of_pos (by simp [hnotc])]
        simp
      · intro hnd
        apply ih3
        have hnm : r.pid ∉ pidsOf a.results := fun hmem => hr ((hinv r.pid).mpr hmem)
        show (pidsOf (a.results ++ [r])).Nodup
        have hsplit : pidsOf (a.results ++ [r]) = pidsOf a.results ++ [r.pid] := by
          simp [pidsOf]
        rw [hsplit, List.nodup_append]
        refine ⟨hnd, List.nodup_singleton _, ?_⟩
        intro x hx hxr
        rw [List.mem_singleton] at hxr
        subst hxr
        exact hnm hx

theorem addRows_nil_acc (l : List ProductR) (hl : (pidsOf l).Nodup) :
    (addRows ⟨[], []⟩ l).results = l := by
  have h := (addRows_results ⟨[], []⟩ l (by simp [pidsOf]) hl).1
  simpa [pidsOf, List.filter_true] using h

/-! ### C6: staff search on the empty query and on digit queries -/

/-- C6: for `AdminSearch`: a query empty after trimming returns all
products ordered by ascending pid; a digits-only query returns exactly
the catalog product whose pid equals its numeric value, alone, whenever
one exists, and only otherwise falls back to the case-insensitive
substring match of the digit string against name or descr, in pid
order. -/
theorem adminSearch_empty_and_digits (q : String) (db : DB)
    (hnodup : (pidsOf db.products).Nodup) :
    (lowerStr (trimStr q) = "" →
      (mixedProductSearchSales q db).1 = sortByPid db.products ∧
      List.Perm (mixedProductSearchSales q db).1 db.products ∧
      (mixedProductSearchSales q db).1.Pairwise (fun x y => x.pid ≤ y.pid)) ∧
    (isDigits (lowerStr (trimStr q)) = true →
      (∀ pr ∈ db.products, pr.pid = Int.ofNat (natOfDigits (lowerStr (trimStr q))) →
        (mixedProductSearchSales q db).1 = [pr]) ∧
      ((∀ pr ∈ db.products, pr.pid ≠ Int.ofNat (natOfDigits (lowerStr (trimStr q)))) →
        (mixedProductSearchSales q db).1 =
          sortByPid (db.products.filter (matchesLike (lowerStr (trimStr q)))))) := by
  constructor
  · intro h
    have heq : mixedProductSearchSales q db = (sortByPid db.products, db) := by
      simp [mixedProductSearchSales, h]
    rw [heq]
    exact ⟨rfl, sortByPid_perm db.products, sortByPid_sorted db.products⟩
  · intro hd
    have h0 : ¬ lowerStr (trimStr q) = "" := by
      intro h
      rw [h] at hd
      exact absurd hd (by decide)
    constructor
    · intro pr hpr hpid
      have hfilter : db.products.filter
          (fun r => r.pid == Int.ofNat (natOfDigits (lowerStr (trimStr q)))) = [pr] :=
        filter_pid_eq_single db.products _ pr hnodup hpr hpid
      have heq : mixedProductSearchSales q db = ([pr], db) := by
        simp only [mixedProductSearchSales, if_neg h0, hd, if_true]
        rw [hfilter]
        simp [sortByPid, insSorted, addRows, addRow]
      rw [heq]
    · intro hnone
      have hfilter : db.products.filter
          (fun r => r.pid == Int.ofNat (natOfDigits (lowerStr (trimStr q)))) = [] :=
        filter_pid_eq_nil db.products _ hnone
      have hkw : (pidsOf (sortByPid (db.products.filter
          (matchesLike (lowerStr (trimStr q)))))).Nodup :=
        pidsOf_sortByPid_nodup _ (pidsOf_filter_nodup db.products _ hnodup)
      have heq : mixedProductSearchSales q db =
          (sortByPid (db.products.filter (matchesLike (lowerStr (trimStr q)))), db) := by
        simp only [mixedProductSearchSales, if_neg h0, hd, if_true]
        rw [hfilter]
        simp only [show sortByPid ([] : List ProductR) = [] from rfl, List.isEmpty_nil,
          if_true, show addRows { results := [], seen := [] } [] = (⟨[], []⟩ : AccR) from rfl]
        rw [addRows_nil_acc _ hkw]
      rw [heq]

/-- C6 witness: on the sample catalog, the digit query 2003 returns the
product with pid 2003 alone (even though 2002 occurs in another
product's description text), and the empty query returns everything. -/
theorem adminSearch_empty_and_digits_witness :
    (mixedProductSearchSales "2003" dbW).1 = [prW3] ∧
    (mixedProductSearchSales "" dbW).1 = sortByPid dbW.products :=
  ⟨((adminSearch_empty_and_digits "2003" dbW (by decide)).2 (by decide)).1 prW3
      (by decide) (by decide),
   ((adminSearch_empty_and_digits "" dbW (by decide)).1 (by decide)).1⟩

/-! ### C7: staged multi-token staff search -/

theorem wordFold_results (db : DB) (ws : List String) (seenW : List String) (a : AccR)
    (hinv : ∀ x, x ∈ a.seen ↔ x ∈ pidsOf a.results)
    (hnd : (pidsOf a.results).Nodup)
    (hprod : (pidsOf db.products).Nodup) :
    (ws.foldl (wordStep db) (a, seenW)).1.results =
      (dedupAux seenW ws).foldl
        (fun acc w =>
          acc ++ (sortByPid (db.products.filter (matchesLike w))).filter
            (fun r => !(pidsOf acc).contains r.pid))
        a.results ∧
    (pidsOf (ws.foldl (wordStep db) (a, seenW)).1.results).Nodup := by
  induction ws generalizing a seenW with
  | nil => exact ⟨rfl, hnd⟩
  | cons w ws ih =>
    by_cases hw : w ∈ seenW
    · have hstep : wordStep db (a, seenW) w = (a, seenW) := by
        simp [wordStep, hw]
      have hded : dedupAux seenW (w :: ws) = dedupAux seenW ws := by
        simp [dedupAux, hw]
      rw [List.foldl_cons, hstep, hded]
      exact ih seenW a hinv hnd
    · have hstage : (pidsOf (sortByPid (db.products.filter (matchesLike w)))).Nodup :=
        pidsOf_sortByPid_nodup _ (pidsOf_filter_nodup db.products _ hprod)
      have hstep : wordStep db (a, seenW) w =
          (addRows a (sortByPid (db.products.filter (matchesLike w))), w :: seenW) := by
        simp [wordStep, hw]
      have hded : dedupAux seenW (w :: ws) = w :: dedupAux (w :: seenW) ws := by
        simp [dedupAux, hw]
      obtain ⟨hres, hinv2, hnod2⟩ :=
        addRows_results a (sortByPid (db.products.filter (matchesLike w))) hinv hstage
      rw [List.foldl_cons, hstep, hded, List.foldl_cons]
      have := ih (w :: seenW) (addRows a (sortByPid (db.products.filter (matchesLike w))))
        hinv2 (hnod2 hnd)
      rw [hres] at this
      exact this

/-- C7: on a query with at least two whitespace-separated tokens, the
staff mixed search returns exactly the staged result the specification
describes — all pid-ordered phrase matches first, then for each distinct
token in first-occurrence order the pid-ordered token matches not yet
emitted — and no pid is repeated in the result. -/
theorem adminSearch_multiword (q : String) (db : DB)
    (hnodup : (pidsOf db.products).Nodup)
    (hwords : 2 ≤ (wordsOf (lowerStr (trimStr q))).length) :
    (mixedProductSearchSales q db).1 =
      stagedSpec db (lowerStr (trimStr q)) (wordsOf (lowerStr (trimStr q))) ∧
    (pidsOf (mixedProductSearchSales q db).1).Nodup := by
  have h0 : ¬ lowerStr (trimStr q) = "" := by
    intro h
    rw [h] at hwords
    exact absurd hwords (by decide)
  have hnd2 : isDigits (lowerStr (trimStr q)) = false := by
    by_contra hcontra
    have hdig : isDigits (lowerStr (trimStr q)) = true := by
      simpa using hcontra
    have := wordsOf_digits_len _ hdig
    omega
  have h1lt : 1 < (wordsOf (lowerStr (trimStr q))).length := by omega
  have hphstage : (pidsOf (sortByPid (db.products.filter
      (matchesLike (lowerStr (trimStr q)))))).Nodup :=
    pidsOf_sortByPid_nodup _ (pidsOf_filter_nodup db.products _ hnodup)
  obtain ⟨hres0, hinv0, hnod0⟩ :=
    addRows_results ⟨[], []⟩
      (sortByPid (db.products.filter (matchesLike (lowerStr (trimStr q)))))
      (by simp [pidsOf]) hphstage
  have hres0s : (addRows ⟨[], []⟩
      (sortByPid (db.products.filter (matchesLike (lowerStr (trimStr q)))))).results =
      sortByPid (db.products.filter (matchesLike (lowerStr (trimStr q)))) :=
    addRows_nil_acc _ hphstage
  have heq : (mixedProductSearchSales q db).1 =
      ((wordsOf (lowerStr (trimStr q))).foldl (wordStep db)
        (addRows ⟨[], []⟩
          (sortByPid (db.products.filter (matchesLike (lowerStr (trimStr q))))), [])).1.results := by
    simp only [mixedProductSearchSales, if_neg h0, hnd2, Bool.false_eq_true, if_false,
      if_pos h1lt]
  obtain ⟨hfold, hfnodup⟩ :=
    wordFold_results db (wordsOf (lowerStr (trimStr q))) []
      (addRows ⟨[], []⟩
        (sortByPid (db.products.filter (matchesLike (lowerStr (trimStr q))))))
      hinv0 (hnod0 (by simp [pidsOf])) hnodup
  constructor
  · rw [heq, hfold, hres0s]
    rfl
  · rw [heq]
    exact hfnodup

/-- C7 witness: the two-token query "cable mouse" on the sample catalog
matches the staged specification result and repeats no pid. -/
theorem adminSearch_multiword_witness :
    (mixedProductSearchSales "cable mouse" dbW).1 =
      stagedSpec dbW (lowerStr (trimStr "cable mouse"))
        (wordsOf (lowerStr (trimStr "cable mouse"))) ∧
    (pidsOf (mixedProductSearchSales "cable mouse" dbW).1).Nodup :=
  adminSearch_multiword "cable mouse" dbW (by decide) (by decide)

/-! ### C8: recorded customer search, term construction and pagination -/

/-- C8: for the recorded customer search: an empty query produces no
search terms and returns total 0 with an empty page; a multi-token query
produces the full trimmed phrase followed by each distinct token (the
seen-set starting from the phrase) in first-occurrence order; a
single-token query produces just that token.  The terms are combined in
one OR-condition: the returned total is the number of catalog products
whose name or descr contains any term (each product counted once, the
match list being duplicate-free), and the returned page is the pid-sorted
match list sliced with offset `(page-1)*pageSize` and limit `pageSize`. -/
theorem customerSearch_results (keyword : String) (c sess ts : Int) (page : Int)
    (pageSize : Nat) (db : DB)
    (hnodup : (pidsOf db.products).Nodup) (hpage : 1 ≤ page) :
    (lowerStr (trimStr keyword) = "" → customerTerms keyword = [] ∧
      (searchProducts keyword c sess ts page pageSize db).1 = ([], 0)) ∧
    (2 ≤ (wordsOf (lowerStr (trimStr keyword))).length →
      customerTerms keyword =
        lowerStr (trimStr keyword) ::
          dedupAux [lowerStr (trimStr keyword)] (wordsOf (lowerStr (trimStr keyword)))) ∧
    ((wordsOf (lowerStr (trimStr keyword))).length = 1 →
      customerTerms keyword = [lowerStr (trimStr keyword)]) ∧
    (searchProducts keyword c sess ts page pageSize db).1.2 =
      (db.products.filter (matchesAnyTerm (customerTerms keyword))).length ∧
    (searchProducts keyword c sess ts page pageSize db).1.1 =
      ((sortByPid (db.products.filter (matchesAnyTerm (customerTerms keyword)))).drop
        ((page - 1).toNat * pageSize)).take pageSize ∧
    (pidsOf (db.products.filter (matchesAnyTerm (customerTerms keyword)))).Nodup ∧
    (sortByPid (db.products.filter (matchesAnyTerm (customerTerms keyword)))).Pairwise
      (fun x y => x.pid ≤ y.pid) := by
  have hmax : max (page - 1) 0 = page - 1 := max_eq_left (by omega)
  refine ⟨?_, ?_, ?_, rfl, ?_, ?_, ?_⟩
  · intro h
    have hterms : customerTerms keyword = [] := by
      simp [customerTerms, h]
    refine ⟨hterms, ?_⟩
    have hfilter : db.products.filter (matchesAnyTerm (customerTerms keyword)) = [] := by
      rw [hterms]
      apply List.filter_eq_nil_iff.mpr
      intro r _
      simp [matchesAnyTerm]
    simp [searchProducts, hfilter, show sortByPid ([] : List ProductR) = [] from rfl]
  · intro h2
    have h0 : ¬ lowerStr (trimStr keyword) = "" := by
      intro h
      rw [h] at h2
      exact absurd h2 (by decide)
    have h1lt : 1 < (wordsOf (lowerStr (trimStr keyword))).length := by omega
    simp [customerTerms, if_neg h0, if_pos h1lt]
  · intro h1
    have h0 : ¬ lowerStr (trimStr keyword) = "" := by
      intro h
      rw [h] at h1
      exact absurd h1 (by decide)
    have hnlt : ¬ 1 < (wordsOf (lowerStr (trimStr keyword))).length := by omega
    simp [customerTerms, if_neg h0, hnlt]
  · simp only [searchProducts, hmax]
  · exact pidsOf_filter_nodup db.products _ hnodup
  · exact sortByPid_sorted _

/-- C8 witness: the two-token query "cable mouse" on the sample catalog,
page 1 of size 1, returns total 2 and the first pid-sorted match. -/
theorem customerSearch_results_witness :
    (searchProducts "cable mouse" 1 1 0 1 1 dbW).1.2 =
      (dbW.products.filter (matchesAnyTerm (customerTerms "cable mouse"))).length ∧
    (searchProducts "cable mouse" 1 1 0 1 1 dbW).1.1 =
      ((sortByPid (dbW.products.filter
        (matchesAnyTerm (customerTerms "cable mouse")))).drop 0).take 1 := by
  have h := customerSearch_results "cable mouse" 1 1 0 1 1 dbW (by decide) (by decide)
  exact ⟨h.2.2.2.1, h.2.2.2.2.1⟩

/-! ### C1: checkout -/

theorem decStock_pids (p u : Int) (prods : List ProductR) :
    pidsOf (decStock p u prods) = pidsOf prods := by
  induction prods with
  | nil => rfl
  | cons a l ih =>
    simp only [decStock, pidsOf, List.map_cons] at ih ⊢
    rw [ih]
    congr 1
    by_cases h : a.pid == p
    · rw [if_pos h]
    · rw [if_neg h]

theorem find?_decStock_ne (p2 p u : Int) (prods : List ProductR) (h : p2 ≠ p) :
    (decStock p u prods).find? (fun r => r.pid == p2) =
      prods.find? (fun r => r.pid == p2) := by
  induction prods with
  | nil => rfl
  | cons a l ih =>
    by_cases ha : a.pid = p
    · have hane : ¬ a.pid = p2 := by omega
      simp only [decStock, List.map_cons]
      rw [if_pos (by simpa using ha)]
      rw [List.find?_cons_of_neg _ (by simpa using hane),
        List.find?_cons_of_neg _ (by simpa using hane)]
      simpa [decStock] using ih
    · simp only [decStock, List.map_cons]
      rw [if_neg (by simpa using ha)]
      by_cases ha2 : a.pid = p2
      · rw [List.find?_cons_of_pos _ (by simpa using ha2),
          List.find?_cons_of_pos _ (by simpa using ha2)]
      · rw [List.find?_cons_of_neg _ (by simpa using ha2),
          List.find?_cons_of_neg _ (by simpa using ha2)]
        simpa [decStock] using ih

theorem find?_decStock_self (p u : Int) (prods : List ProductR) :
    (decStock p u prods).find? (fun r => r.pid == p) =
      (prods.find? (fun r => r.pid == p)).map
        (fun r => { r with stock_count := r.stock_count - u }) := by
  induction prods with
  | nil => rfl
  | cons a l ih =>
    by_cases ha : a.pid = p
    · simp only [decStock, List.map_cons]
      rw [if_pos (by simpa using ha)]
      rw [List.find?_cons_of_pos _ (by simpa using ha),
        List.find?_cons_of_pos _ (by simpa using ha)]
      rfl
    · simp only [decStock, List.map_cons]
      rw [if_neg (by simpa using ha)]
      rw [List.find?_cons_of_neg _ (by simpa using ha),
        List.find?_cons_of_neg _ (by simpa using ha)]
      simpa [decStock] using ih

theorem groupCart_fst (rows : List CartRow) :
    (groupCart rows).map Prod.fst = dedupInt (rows.map (fun r => r.pid)) := by
  simp only [groupCart, List.map_map]
  rw [show (Prod.fst ∘ fun p : Int =>
      (p, ((rows.filter (fun r => r.pid == p)).map (fun r => r.qty)).sum)) = id from rfl]
  rw [List.map_id]

theorem groupCart_fst_nodup (rows : List CartRow) :
    ((groupCart rows).map Prod.fst).Nodup := by
  rw [groupCart_fst]
  exact dedupInt_nodup _

theorem intRange_succ_len (start : Int) (n : Nat) :
    intRange start (n + 1) = start :: intRange (start + 1) n := rfl

theorem checkoutLines_basic (ono : Int) (rows : List (Int × Int)) (n : Int)
    (prods : List ProductR) :
    ((checkoutLines ono n prods rows).1.map (fun l => l.lineNo) =
      intRange n (checkoutLines ono n prods rows).1.length) ∧
    (∀ l ∈ (checkoutLines ono n prods rows).1, l.ono = ono) ∧
    (∀ l ∈ (checkoutLines ono n prods rows).1, l.pid ∈ rows.map Prod.fst) ∧
    (pidsOf (checkoutLines ono n prods rows).2 = pidsOf prods) ∧
    (∀ p2 : Int, p2 ∉ rows.map Prod.fst →
      (checkoutLines ono n prods rows).2.find? (fun r => r.pid == p2) =
        prods.find? (fun r => r.pid == p2)) := by
  induction rows generalizing n prods with
  | nil => simp [checkoutLines, intRange]
  | cons pq0 rest ih =>
    obtain ⟨p, q⟩ := pq0
    cases hfind : prods.find? (fun r => r.pid == p) with
    | none =>
      have hstep : checkoutLines ono n prods ((p, q) :: rest) =
          checkoutLines ono n prods rest := by
        simp [checkoutLines, hfind]
      rw [hstep]
      obtain ⟨ih1, ih2, ih3, ih4, ih5⟩ := ih n prods
      refine ⟨ih1, ih2, ?_, ih4, ?_⟩
      · intro l hl
        rw [List.map_cons]
        exact List.mem_cons_of_mem _ (ih3 l hl)
      · intro p2 hp2
        apply ih5
        intro hmem
        apply hp2
        rw [List.map_cons]
        exact List.mem_cons_of_mem _ hmem
    | some pr =>
      by_cases hle : min q pr.stock_count ≤ 0
      · have hstep : checkoutLines ono n prods ((p, q) :: rest) =
            checkoutLines ono n prods rest := by
          simp [checkoutLines, hfind, hle]
        rw [hstep]
        obtain ⟨ih1, ih2, ih3, ih4, ih5⟩ := ih n prods
        refine ⟨ih1, ih2, ?_, ih4, ?_⟩
        · intro l hl
          rw [List.map_cons]
          exact List.mem_cons_of_mem _ (ih3 l hl)
        · intro p2 hp2
          apply ih5
          intro hmem
          apply hp2
          rw [List.map_cons]
          exact List.mem_cons_of_mem _ hmem
      · have hstep : checkoutLines ono n prods ((p, q) :: rest) =
            (⟨ono, n, p, min q pr.stock_count, pr.price⟩ ::
              (checkoutLines ono (n + 1) (decStock p (min q pr.stock_count) prods) rest).1,
             (checkoutLines ono (n + 1) (decStock p (min q pr.stock_count) prods) rest).2) := by
          simp [checkoutLines, hfind, hle]
        rw [hstep]
        obtain ⟨ih1, ih2, ih3, ih4, ih5⟩ :=
          ih (n + 1) (decStock p (min q pr.stock_count) prods)
        refine ⟨?_, ?_, ?_, ?_, ?_⟩
        · simp only [List.map_cons, List.length_cons]
          rw [ih1]
          rfl
        · intro l hl
          rcases List.mem_cons.mp hl with rfl | hl2
          · rfl
          · exact ih2 l hl2
        · intro l hl
          rw [List.map_cons]
          rcases List.mem_cons.mp hl with rfl | hl2
          · exact List.mem_cons_self _ _
          · exact List.mem_cons_of_mem _ (ih3 l hl2)
        · rw [ih4, decStock_pids]
        · intro p2 hp2
          rw [List.map_cons] at hp2
          have hp2p : p2 ≠ p := fun h => hp2 (h ▸ List.mem_cons_self _ _)
          have hp2r : p2 ∉ rest.map Prod.fst := fun h => hp2 (List.mem_cons_of_mem _ h)
          rw [ih5 p2 hp2r, find?_decStock_ne p2 p _ prods hp2p]

theorem checkoutLines_outcome (ono : Int) (rows : List (Int × Int)) (n : Int)
    (prods : List ProductR) (hrows : (rows.map Prod.fst).Nodup) :
    ∀ p2 q2 : Int, (p2, q2) ∈ rows →
      match prods.find? (fun r => r.pid == p2) with
      | none =>
        (∀ l ∈ (checkoutLines ono n prods rows).1, l.pid ≠ p2) ∧
        (checkoutLines ono n prods rows).2.find? (fun r => r.pid == p2) = none
      | some pr =>
        if min q2 pr.stock_count ≤ 0 then
          (∀ l ∈ (checkoutLines ono n prods rows).1, l.pid ≠ p2) ∧
          (checkoutLines ono n prods rows).2.find? (fun r => r.pid == p2) = some pr
        else
          ((checkoutLines ono n prods rows).1.filter (fun l => l.pid == p2)).length = 1 ∧
          (∀ l ∈ (checkoutLines ono n prods rows).1, l.pid = p2 →
            l.qty = min q2 pr.stock_count ∧ l.uprice = pr.price) ∧
          (checkoutLines ono n prods rows).2.find? (fun r => r.pid == p2) =
            some { pr with stock_count := pr.stock_count - min q2 pr.stock_count } := by
  induction rows generalizing n prods with
  | nil =>
    intro p2 q2 h
    cases h
  | cons pq0 rest ih =>
    obtain ⟨p, q⟩ := pq0
    have hpnotin : p ∉ rest.map Prod.fst := by
      have := hrows
      rw [List.map_cons, List.nodup_cons] at this
      exact this.1
    have hrest : (rest.map Prod.fst).Nodup := by
      have := hrows
      rw [List.map_cons, List.nodup_cons] at this
      exact this.2
    intro p2 q2 hpq
    rcases List.mem_cons.mp hpq with heq | hmem
    · -- the head pair itself
      have hp2 : p2 = p := congrArg Prod.fst heq
      have hq2 : q2 = q := congrArg Prod.snd heq
      subst hp2
      subst hq2
      cases hfind : prods.find? (fun r => r.pid == p2) with
      | none =>
        have hstep : checkoutLines ono n prods ((p2, q2) :: rest) =
            checkoutLines ono n prods rest := by
          simp [checkoutLines, hfind]
        obtain ⟨_, _, ih3, _, ih5⟩ := checkoutLines_basic ono rest n prods
        rw [hstep]
        refine ⟨?_, ?_⟩
        · intro l hl hle
          apply hpnotin
          rw [← hle]
          exact ih3 l hl
        · rw [ih5 p2 hpnotin, hfind]
      | some pr =>
        by_cases hle : min q2 pr.stock_count ≤ 0
        · dsimp only
          rw [if_pos hle]
          have hstep : checkoutLines ono n prods ((p2, q2) :: rest) =
              checkoutLines ono n prods rest := by
            simp [checkoutLines, hfind, hle]
          obtain ⟨_, _, ih3, _, ih5⟩ := checkoutLines_basic ono rest n prods
          rw [hstep]
          refine ⟨?_, ?_⟩
          · intro l hl hpe
            apply hpnotin
            rw [← hpe]
            exact ih3 l hl
          · rw [ih5 p2 hpnotin, hfind]
        · dsimp only
          rw [if_neg hle]
          have hstep : checkoutLines ono n prods ((p2, q2) :: rest) =
              (⟨ono, n, p2, min q2 pr.stock_count, pr.price⟩ ::
                (checkoutLines ono (n + 1)
                  (decStock p2 (min q2 pr.stock_count) prods) rest).1,
               (checkoutLines ono (n + 1)
                  (decStock p2 (min q2 pr.stock_count) prods) rest).2) := by
            simp [checkoutLines, hfind, hle]
          obtain ⟨_, _, ih3, _, ih5⟩ := checkoutLines_basic ono rest (n + 1)
            (decStock p2 (min q2 pr.stock_count) prods)
          rw [hstep]
          have hrecnone : ∀ l ∈ (checkoutLines ono (n + 1)
              (decStock p2 (min q2 pr.stock_count) prods) rest).1, ¬ l.pid = p2 := by
            intro l hl hpe
            apply hpnotin
            rw [← hpe]
            exact ih3 l hl
          refine ⟨?_, ?_, ?_⟩
          · rw [List.filter_cons_of_pos (by simp)]
            rw [List.filter_eq_nil_iff.mpr (by
              intro l hl
              simpa using hrecnone l hl)]
            rfl
          · intro l hl _
            rcases List.mem_cons.mp hl with rfl | hl2
            · exact ⟨rfl, rfl⟩
            · exact absurd (by assumption) (hrecnone l hl2)
          · rw [ih5 p2 hpnotin, find?_decStock_self, hfind]
            rfl
    · -- a pair further down the list
      have hp2ne : p2 ≠ p := by
        intro h
        apply hpnotin
        rw [← h]
        exact List.mem_map_of_mem Prod.fst hmem
      cases hfind : prods.find? (fun r => r.pid == p) with
      | none =>
        have hstep : checkoutLines ono n prods ((p, q) :: rest) =
            checkoutLines ono n prods rest := by
          simp [checkoutLines, hfind]
        rw [hstep]
        exact ih n prods hrest p2 q2 hmem
      | some pr =>
        by_cases hle : min q pr.stock_count ≤ 0
        · have hstep : checkoutLines ono n prods ((p, q) :: rest) =
              checkoutLines ono n prods rest := by
            simp [checkoutLines, hfind, hle]
          rw [hstep]
          exact ih n prods hrest p2 q2 hmem
        · have hstep : checkoutLines ono n prods ((p, q) :: rest) =
              (⟨ono, n, p, min q pr.stock_count, pr.price⟩ ::
                (checkoutLines ono (n + 1)
                  (decStock p (min q pr.stock_count) prods) rest).1,
               (checkoutLines ono (n + 1)
                  (decStock p (min q pr.stock_count) prods) rest).2) := by
            simp [checkoutLines, hfind, hle]
          rw [hstep]
          have hswap : (decStock p (min q pr.stock_count) prods).find?
              (fun r => r.pid == p2) = prods.find? (fun r => r.pid == p2) :=
            find?_decStock_ne p2 p _ prods hp2ne
          have ihspec := ih (n + 1) (decStock p (min q pr.stock_count) prods)
            hrest p2 q2 hmem
          rw [hswap] at ihspec
          cases hfind2 : prods.find? (fun r => r.pid == p2) with
          | none =>
            rw [hfind2] at ihspec
            dsimp only at ihspec
            dsimp only
            refine ⟨?_, ihspec.2⟩
            intro l hl
            rcases List.mem_cons.mp hl with rfl | hl2
            · simpa using hp2ne.symm
            · exact ihspec.1 l hl2
          | some pr2 =>
            rw [hfind2] at ihspec
            dsimp only at ihspec
            dsimp only
            by_cases hle2 : min q2 pr2.stock_count ≤ 0
            · rw [if_pos hle2]
              rw [if_pos hle2] at ihspec
              refine ⟨?_, ihspec.2⟩
              intro l hl
              rcases List.mem_cons.mp hl with rfl | hl2
              · simpa using hp2ne.symm
              · exact ihspec.1 l hl2
            · rw [if_neg hle2]
              rw [if_neg hle2] at ihspec
              refine ⟨?_, ?_, ihspec.2.2⟩
              · rw [List.filter_cons_of_neg (by simpa using hp2ne.symm)]
                exact ihspec.1
              · intro l hl hpe
                rcases List.mem_cons.mp hl with rfl | hl2
                · exact absurd hpe (by simpa using hp2ne.symm)
                · exact ihspec.2.1 l hl2 hpe

/-- C1: `Checkout(c, sessionId, shippingAddress, orderDate)` reads the
customer's cart grouped by product with summed quantities, always inserts
exactly one order header under the fresh order number (also on an empty
cart, which yields a zero-line order), and processes the grouped lines in
iteration order: a vanished product is skipped with no line number
consumed and no stock touched; a line whose committed quantity
`min(cartQty, stock)` is not positive is skipped likewise; every other
line gets the next sequential line number starting at 1, an order line
with the committed quantity and the product's price at checkout time, and
the product's stock is decremented by exactly the committed quantity
(other products' catalog rows are untouched).  Finally every cart row of
the customer is deleted, so `List(c)` is empty afterwards. -/
theorem checkout_correct (c s : Int) (addr : String) (d ono : Int) (db : DB)
    (hfresh : ono ∉ db.orders.map (fun o => o.ono)) :
    (checkout c s addr d ono db).1 = ono ∧
    (checkout c s addr d ono db).2.orders = db.orders ++ [⟨ono, c, s, d, addr⟩] ∧
    ((checkout c s addr d ono db).2.orders.map (fun o => o.ono)).count ono = 1 ∧
    (checkout c s addr d ono db).2.cart = db.cart.filter (fun r => !(r.cid == c)) ∧
    listCart c s (checkout c s addr d ono db).2 = [] ∧
    (checkout c s addr d ono db).2.searchLog = db.searchLog ∧
    (checkout c s addr d ono db).2.orderlines =
      db.orderlines ++ (checkoutLines ono 1 db.products (checkoutRows c db)).1 ∧
    ((checkoutLines ono 1 db.products (checkoutRows c db)).1.map (fun l => l.lineNo) =
      intRange 1 (checkoutLines ono 1 db.products (checkoutRows c db)).1.length) ∧
    (∀ l ∈ (checkoutLines ono 1 db.products (checkoutRows c db)).1, l.ono = ono) ∧
    (db.cart.filter (fun r => r.cid == c) = [] →
      (checkoutLines ono 1 db.products (checkoutRows c db)).1 = []) ∧
    (∀ p2 : Int, p2 ∉ (checkoutRows c db).map Prod.fst →
      (checkout c s addr d ono db).2.products.find? (fun r => r.pid == p2) =
        db.products.find? (fun r => r.pid == p2)) ∧
    (∀ p2 q2 : Int, (p2, q2) ∈ checkoutRows c db →
      match db.products.find? (fun r => r.pid == p2) with
      | none =>
        (∀ l ∈ (checkoutLines ono 1 db.products (checkoutRows c db)).1, l.pid ≠ p2) ∧
        (checkout c s addr d ono db).2.products.find? (fun r => r.pid == p2) = none
      | some pr =>
        if min q2 pr.stock_count ≤ 0 then
          (∀ l ∈ (checkoutLines ono 1 db.products (checkoutRows c db)).1, l.pid ≠ p2) ∧
          (checkout c s addr d ono db).2.products.find? (fun r => r.pid == p2) = some pr
        else
          ((checkoutLines ono 1 db.products (checkoutRows c db)).1.filter
            (fun l => l.pid == p2)).length = 1 ∧
          (∀ l ∈ (checkoutLines ono 1 db.products (checkoutRows c db)).1, l.pid = p2 →
            l.qty = min q2 pr.stock_count ∧ l.uprice = pr.price) ∧
          (checkout c s addr d ono db).2.products.find? (fun r => r.pid == p2) =
            some { pr with stock_count := pr.stock_count - min q2 pr.stock_count }) := by
  obtain ⟨hb1, hb2, hb3, hb4, hb5⟩ :=
    checkoutLines_basic ono (checkoutRows c db) 1 db.products
  refine ⟨rfl, rfl, ?_, rfl, ?_, rfl, rfl, hb1, hb2, ?_, hb5, ?_⟩
  · have hmap : ((checkout c s addr d ono db).2.orders.map (fun o => o.ono)) =
        db.orders.map (fun o => o.ono) ++ [ono] := by
      simp [checkout]
    rw [hmap, List.count_append, List.count_eq_zero.mpr hfresh]
    simp
  · have hff : (db.cart.filter (fun r => !(r.cid == c))).filter
        (fun r => r.cid == c) = [] := by
      apply List.filter_eq_nil_iff.mpr
      intro r hr
      have := (List.mem_filter.mp hr).2
      simp at this ⊢
      exact this
    unfold listCart
    rw [show (checkout c s addr d ono db).2.cart =
      db.cart.filter (fun r => !(r.cid == c)) from rfl, hff]
    rfl
  · intro h
    simp only [checkoutRows]
    rw [h]
    rfl
  · exact checkoutLines_outcome ono (checkoutRows c db) 1 db.products
      (groupCart_fst_nodup _)

/-- C1 witness: checking out customer 1 of the sample state (whose cart
holds a capped line, a normal line and a vanished product 8888) returns
the fresh order number and leaves the customer's aggregated cart empty. -/
theorem checkout_correct_witness :
    (checkout 1 5 "addr" 99 555 dbW2).1 = 555 ∧
    listCart 1 5 (checkout 1 5 "addr" 99 555 dbW2).2 = [] :=
  ⟨(checkout_correct 1 5 "addr" 99 555 dbW2 (by decide)).1,
   (checkout_correct 1 5 "addr" 99 555 dbW2 (by decide)).2.2.2.2.1⟩

end InvMgr
